import Mathlib

/-!
Verification of the progress-tracking and adaptive review-queue scheduler of a
flashcard application. The embedding below translates the TypeScript source
(`src/types.ts`, `src/hooks/useProgress.ts`, `src/App.tsx`) into Lean:

* pure data (questions, progress records, session snapshots) become structures;
* the React state held by `App` (`mode`, `currentQueue`, `currentIndex`)
  becomes an explicit `SessionState` value threaded through the operations;
* `localStorage` persistence is modelled by the fact that the auto-save
  `useEffect` re-serialises `{mode, queue, index}` after every state change,
  so the persisted blob always coincides with the in-memory `SessionState`
  once an operation completes; restoring from storage is `initApp` applied to
  an `Option SessionState` (`none` covers both an absent and a malformed blob,
  which the source treats identically via its `try`/`catch`);
* `Date.now()` becomes an explicit `now : Nat` argument;
* `Array.prototype.sort(comparator)` becomes a comparison-driven merge sort
  `jsMergeSort`; the `0.5 - Math.random()` tie-break drawn inside the
  comparator becomes an unconstrained function `r : Question → Question →
  Ordering` giving the sign of the draw for each compared pair (a merge sort
  compares any pair at most once, so one draw per pair is fully general);
* `alert(...)` calls become explicit `SessionSignal` values returned to the
  caller.
-/

/-- Question type enum from `src/types.ts` (`'single' | 'multiple' | 'judgment'`). -/
inductive QuestionType where
  | single
  | multiple
  | judgment
deriving DecidableEq, Repr

/-- Progress status enum from `src/types.ts` (`'new' | 'learning' | 'mastered'`). -/
inductive ProgressStatus where
  | new
  | learning
  | mastered
deriving DecidableEq, Repr

/-- A bank question, from the `Question` interface in `src/types.ts`.
`answer` is a single option key for single-choice/judgment (`Sum.inl`) or a
list of keys for multiple-choice (`Sum.inr`). -/
structure Question where
  id : String
  category : String
  qtype : QuestionType
  question : String
  options : Option (List String)
  answer : String ⊕ List String
  explanation : Option String
deriving DecidableEq, Repr

/-- A per-question progress record, from the `UserProgress` interface in
`src/types.ts`. `lastReviewed` is epoch milliseconds (`Date.now()`). -/
structure UserProgress where
  status : ProgressStatus
  difficultyScore : Int
  lastReviewed : Nat
  reviewCount : Nat
deriving DecidableEq, Repr

/-- The `ProgressMap` of `src/types.ts`: a JS object keyed by question id;
absence of a key means the question was never answered. -/
def ProgressMap : Type := String → Option UserProgress

/-- The empty progress map (initial `useState<ProgressMap>({})`). -/
def emptyProgress : ProgressMap := fun _ => none

/-- The binary answer outcome passed to `updateProgress` / `handleCardResult`
(`'easy' | 'hard'`). -/
inductive Difficulty where
  | easy
  | hard
deriving DecidableEq, Repr

/-- The `updateProgress` function of `src/hooks/useProgress.ts`: look up the
existing record (or synthesise the default `{status: 'new', difficultyScore: 0,
lastReviewed: 0, reviewCount: 0}`), then overwrite with `learning`/5 on `hard`
and `mastered`/0 on `easy`, bumping `reviewCount` and stamping `lastReviewed`
with the current time `now`. -/
def updateProgress (prev : ProgressMap) (questionId : String)
    (difficulty : Difficulty) (now : Nat) : ProgressMap :=
  let current := (prev questionId).getD
    { status := .new, difficultyScore := 0, lastReviewed := 0, reviewCount := 0 }
  let newReviewCount := current.reviewCount + 1
  let newStatus : ProgressStatus := match difficulty with
    | .hard => .learning
    | .easy => .mastered
  let newScore : Int := match difficulty with
    | .hard => 5
    | .easy => 0
  fun id =>
    if id = questionId then
      some { status := newStatus, difficultyScore := newScore,
             lastReviewed := now, reviewCount := newReviewCount }
    else prev id

/-- Progress maps reachable from the empty map by `updateProgress` calls —
exactly the states the store can be in after any sequence of recorded
answers starting from a fresh (or reset) store. -/
inductive ReachableProgress : ProgressMap → Prop where
  | empty : ReachableProgress emptyProgress
  | step (m : ProgressMap) (q : String) (d : Difficulty) (now : Nat) :
      ReachableProgress m → ReachableProgress (updateProgress m q d now)

/-- Merge step of the comparator-driven sort modelling
`Array.prototype.sort`: emit the left head unless the comparator says it is
greater than the right head (a comparator result `> 0` means "b comes
first" in JS sort semantics). -/
def jsMerge (c : Question → Question → Ordering) :
    List Question → List Question → List Question
  | [], ys => ys
  | x :: xs, [] => x :: xs
  | x :: xs, y :: ys =>
    if c x y = .gt then y :: jsMerge c (x :: xs) ys
    else x :: jsMerge c xs (y :: ys)
termination_by xs ys => xs.length + ys.length

/-- Comparator-driven merge sort modelling `Array.prototype.sort(comparator)`.
The engine-level algorithm (TimSort) is abstracted as a plain top-down merge
sort; all sort-dependent claims quantify over the tie-break oracle inside the
comparator, which captures every possible outcome of the per-comparison
`Math.random()` draws. -/
def jsMergeSort (c : Question → Question → Ordering) :
    List Question → List Question
  | [] => []
  | [a] => [a]
  | a :: b :: l =>
    let n := (a :: b :: l).length / 2
    jsMerge c (jsMergeSort c ((a :: b :: l).take n))
              (jsMergeSort c ((a :: b :: l).drop n))
termination_by l => l.length
decreasing_by
  · simp only [List.length_take, List.length_cons]
    omega
  · simp only [List.length_drop, List.length_cons]
    omega

/-- The `getWeight` helper inside the smart-review branch of `startSession`
(`src/App.tsx`): no record → 3 ("new"), `difficultyScore > 2` → 4 ("hard"),
status `learning` → 2, otherwise (mastered) → 0. -/
def getWeight (progress : ProgressMap) (id : String) : Nat :=
  match progress id with
  | none => 3
  | some p =>
    if p.difficultyScore > 2 then 4
    else if p.status = .learning then 2
    else 0

/-- The smart-review comparator of `src/App.tsx`:
`getWeight(b.id) - getWeight(a.id) || (0.5 - Math.random())`. A nonzero
weight difference decides the order (descending by weight); on a tie the
random draw, modelled by `r`, decides. -/
def smartCompare (progress : ProgressMap) (r : Question → Question → Ordering)
    (a b : Question) : Ordering :=
  let d : Int := (getWeight progress b.id : Int) - (getWeight progress a.id : Int)
  if d < 0 then .lt
  else if 0 < d then .gt
  else r a b

/-- The category-mode comparator of `src/App.tsx`: status score 1 for
`mastered`, 0 otherwise, compared ascending
(`score(statusA) - score(statusB) || (0.5 - Math.random())`), so mastered
questions sink to the back; ties are decided by the random draw `r`. -/
def categoryCompare (progress : ProgressMap) (r : Question → Question → Ordering)
    (a b : Question) : Ordering :=
  let statusA := ((progress a.id).map (·.status)).getD .new
  let statusB := ((progress b.id).map (·.status)).getD .new
  let score : ProgressStatus → Int := fun s => if s = .mastered then 1 else 0
  let d := score statusA - score statusB
  if d < 0 then .lt
  else if 0 < d then .gt
  else r a b

/-- The smart-review queue built by `startSession` when no category is given:
sort the candidates with the weight comparator, truncate to the first 30
(`.slice(0, 30)`, the batch size), and project to ids. -/
def smartQueue (progress : ProgressMap) (r : Question → Question → Ordering)
    (candidates : List Question) : List String :=
  ((jsMergeSort (smartCompare progress r) candidates).take 30).map (·.id)

/-- The category-mode queue built by `startSession` when a category is given:
sort the candidates with the status comparator and project to ids — no
truncation. -/
def categoryQueue (progress : ProgressMap) (r : Question → Question → Ordering)
    (candidates : List Question) : List String :=
  (jsMergeSort (categoryCompare progress r) candidates).map (·.id)

/-- Candidate filtering at the top of `startSession`: filter by category if
one is given, then by question type if one is given. -/
def filterCandidates (questions : List Question) (category : Option String)
    (qtype : Option QuestionType) : List Question :=
  let c1 := match category with
    | some cat => questions.filter (fun q => q.category = cat)
    | none => questions
  match qtype with
  | some t => c1.filter (fun q => q.qtype = t)
  | none => c1

/-- The study-mode enum of `src/types.ts`. -/
inductive StudyMode where
  | DASHBOARD
  | STUDY
  | REVIEW_HARD
deriving DecidableEq, Repr

/-- The session snapshot persisted under `safety_exam_session_v2` and the
in-memory React state of `App` (`mode`, `currentQueue`, `currentIndex`). -/
structure SessionState where
  mode : StudyMode
  queue : List String
  index : Nat
deriving DecidableEq, Repr

/-- The idle controller state: dashboard mode, empty queue, cursor 0 — both
the first-run default of `App` and the state `exitSession` resets to. -/
def idleSession : SessionState :=
  { mode := .DASHBOARD, queue := [], index := 0 }

/-- Signals surfaced to the user by the controller: the two `alert(...)`
calls in `src/App.tsx` (`"没有找到符合条件的题目！"` on an empty candidate
set, `"本次练习完成！"` on completing the queue) and the silent case. -/
inductive SessionSignal where
  | none
  | noMatchingQuestions
  | sessionComplete
deriving DecidableEq, Repr

/-- The `startSession` function of `src/App.tsx`: filter the bank, build the
queue for the requested mode, and — if the queue is empty — alert and return
with the controller state `st` untouched; otherwise enter study mode at
cursor 0. -/
def startSession (questions : List Question) (progress : ProgressMap)
    (r : Question → Question → Ordering) (st : SessionState)
    (category : Option String) (qtype : Option QuestionType) :
    SessionState × SessionSignal :=
  let candidates := filterCandidates questions category qtype
  let queue : List String := match category with
    | some _ => categoryQueue progress r candidates
    | none => smartQueue progress r candidates
  if queue.length = 0 then (st, .noMatchingQuestions)
  else ({ mode := .STUDY, queue := queue, index := 0 }, .none)

/-- The `handleCardResult` function of `src/App.tsx`: record the outcome for
the question at the cursor (an out-of-range access yields JS `undefined`,
which `updateProgress` would store under the key `"undefined"` — hence the
default), then either advance the cursor (staying in study mode) or, on the
last question, signal completion and exit to the idle state, clearing the
persisted session. The cursor comparison is over the integers because JS
`length - 1` is `-1` on an empty queue. -/
def handleCardResult (st : SessionState) (progress : ProgressMap)
    (difficulty : Difficulty) (now : Nat) :
    SessionState × ProgressMap × SessionSignal :=
  let currentQId := st.queue.getD st.index "undefined"
  let progress1 := updateProgress progress currentQId difficulty now
  if (st.index : Int) < (st.queue.length : Int) - 1 then
    ({ st with index := st.index + 1 }, progress1, .none)
  else
    (idleSession, progress1, .sessionComplete)

/-- The `currentQuestion` memo of `src/App.tsx`: `null` outside study mode,
otherwise `QUESTIONS.find(q => q.id === currentQueue[currentIndex])`; when
the cursor is out of range the JS lookup is `undefined` and `find` matches
nothing. -/
def currentQuestion (questions : List Question) (st : SessionState) :
    Option Question :=
  if st.mode ≠ .STUDY then none
  else
    match st.queue[st.index]? with
    | some qid => questions.find? (fun q => q.id = qid)
    | none => none

/-- Start-up state restoration in `App` (`src/App.tsx`): the `useState`
initialiser parses the persisted session snapshot and uses it verbatim as
`mode`/`currentQueue`/`currentIndex`; an absent or malformed blob (`none`)
falls back to the idle default. The queue builder is not invoked here — the
restored queue is taken as-is. -/
def initApp (saved : Option SessionState) : SessionState :=
  saved.getD idleSession

/-- Trace of a study session: state, progress map and last signal after `k`
calls to `handleCardResult`, starting from a fresh study session over
`queue` (the state a successful `startSession` produces), with the outcome
and timestamp of the `k`-th call drawn from `outs`/`times`. -/
def sessionTrace (queue : List String) (pm0 : ProgressMap)
    (outs : Nat → Difficulty) (times : Nat → Nat) :
    Nat → SessionState × ProgressMap × SessionSignal
  | 0 => ({ mode := .STUDY, queue := queue, index := 0 }, pm0, .none)
  | k + 1 =>
    let prev := sessionTrace queue pm0 outs times k
    handleCardResult prev.1 prev.2.1 (outs k) (times k)

/-- Merging permutes the concatenation of its arguments. -/
theorem jsMerge_perm (c : Question → Question → Ordering) :
    ∀ (l1 l2 : List Question), (jsMerge c l1 l2).Perm (l1 ++ l2)
  | [], ys => by simp [jsMerge]
  | x :: xs, [] => by simp [jsMerge]
  | x :: xs, y :: ys => by
    unfold jsMerge
    split
    · exact ((jsMerge_perm c (x :: xs) ys).cons y).trans List.perm_middle.symm
    · exact (jsMerge_perm c xs (y :: ys)).cons x
termination_by l1 l2 => l1.length + l2.length

/-- Membership in a merge is membership in either argument. -/
theorem mem_jsMerge (c : Question → Question → Ordering)
    (l1 l2 : List Question) (z : Question) :
    z ∈ jsMerge c l1 l2 ↔ z ∈ l1 ∨ z ∈ l2 := by
  rw [(jsMerge_perm c l1 l2).mem_iff, List.mem_append]

/-- The comparator-driven sort permutes its input. -/
theorem jsMergeSort_perm (c : Question → Question → Ordering)
    (l : List Question) : (jsMergeSort c l).Perm l := by
  induction l using jsMergeSort.induct c with
  | case1 => simp [jsMergeSort]
  | case2 a => simp [jsMergeSort]
  | case3 a b l n ih1 ih2 =>
    unfold jsMergeSort
    refine (jsMerge_perm c _ _).trans ((ih1.append ih2).trans ?_)
    rw [List.take_append_drop]

/-- If the comparator decides every strict weight difference (returning `gt`
when the right element weighs strictly more and `lt` when it weighs strictly
less, with arbitrary tie-breaking otherwise), then merging two lists that are
each ordered by non-increasing weight yields a list ordered by non-increasing
weight. -/
theorem jsMerge_pairwise (w : Question → Nat) (c : Question → Question → Ordering)
    (H : ∀ a b, w a < w b → c a b = .gt)
    (H' : ∀ a b, w b < w a → c a b = .lt) :
    ∀ (l1 l2 : List Question),
      l1.Pairwise (fun a b => w b ≤ w a) → l2.Pairwise (fun a b => w b ≤ w a) →
      (jsMerge c l1 l2).Pairwise (fun a b => w b ≤ w a)
  | [], ys => fun _ h2 => by simpa [jsMerge] using h2
  | x :: xs, [] => fun h1 _ => by simpa [jsMerge] using h1
  | x :: xs, y :: ys => fun h1 h2 => by
    rw [List.pairwise_cons] at h1 h2
    unfold jsMerge
    split
    · rename_i hgt
      have hxy : w x ≤ w y := by
        by_contra hlt
        have hc := H' x y (by omega)
        rw [hc] at hgt
        exact absurd hgt (by decide)
      rw [List.pairwise_cons]
      refine ⟨?_, jsMerge_pairwise w c H H' (x :: xs)
        ys (List.pairwise_cons.mpr h1) h2.2⟩
      intro z hz
      rcases (mem_jsMerge c (x :: xs) ys z).mp hz with hz1 | hz2
      · rcases List.mem_cons.mp hz1 with hzx | hzxs
        · subst hzx
          omega
        · have := h1.1 z hzxs
          omega
      · exact h2.1 z hz2
    · rename_i hngt
      have hyx : w y ≤ w x := by
        by_contra hlt
        exact hngt (H x y (by omega))
      rw [List.pairwise_cons]
      refine ⟨?_, jsMerge_pairwise w c H H' xs
        (y :: ys) h1.2 (List.pairwise_cons.mpr h2)⟩
      intro z hz
      rcases (mem_jsMerge c xs (y :: ys) z).mp hz with hz1 | hz2
      · exact h1.1 z hz1
      · rcases List.mem_cons.mp hz2 with hzy | hzys
        · subst hzy
          omega
        · have := h2.1 z hzys
          omega
termination_by l1 l2 => l1.length + l2.length

/-- If the comparator decides every strict weight difference, the sorted list
is ordered by non-increasing weight regardless of how ties were broken. -/
theorem jsMergeSort_pairwise (w : Question → Nat)
    (c : Question → Question → Ordering)
    (H : ∀ a b, w a < w b → c a b = .gt)
    (H' : ∀ a b, w b < w a → c a b = .lt)
    (l : List Question) :
    (jsMergeSort c l).Pairwise (fun a b => w b ≤ w a) := by
  induction l using jsMergeSort.induct c with
  | case1 => simp [jsMergeSort]
  | case2 a => simp [jsMergeSort]
  | case3 a b l n ih1 ih2 =>
    unfold jsMergeSort
    exact jsMerge_pairwise w c H H' _ _ ih1 ih2

/-- C1: for every question id and every prior progress state (including no
record), `recordAnswer(q, hard)` yields status `learning` with
difficultyScore 5 and `recordAnswer(q, easy)` yields status `mastered` with
difficultyScore 0, regardless of prior state; in both cases the new
`reviewCount` is the previous one (0 if no record existed) plus 1 and
`lastReviewed` is the current time. -/
theorem C1_recordAnswer_memoryless (prev : ProgressMap) (q : String) (now : Nat) :
    updateProgress prev q .hard now q =
      some { status := .learning, difficultyScore := 5, lastReviewed := now,
             reviewCount := ((prev q).map (·.reviewCount)).getD 0 + 1 } ∧
    updateProgress prev q .easy now q =
      some { status := .mastered, difficultyScore := 0, lastReviewed := now,
             reviewCount := ((prev q).map (·.reviewCount)).getD 0 + 1 } := by
  constructor <;>
    · simp only [updateProgress]
      cases prev q <;> simp

/-- Every record stored in a progress map reachable by `updateProgress` steps
is either a `learning` record with score 5 or a `mastered` record with
score 0. Shared workhorse for the store invariants. -/
theorem reachable_record_cases (m : ProgressMap) (h : ReachableProgress m) :
    ∀ id r, m id = some r →
      (r.status = .learning ∧ r.difficultyScore = 5) ∨
      (r.status = .mastered ∧ r.difficultyScore = 0) := by
  induction h with
  | empty =>
    intro id r hr
    exact absurd hr (by simp [emptyProgress])
  | step m q d now _ ih =>
    intro id r hr
    simp only [updateProgress] at hr
    by_cases hq : id = q
    · rw [if_pos hq] at hr
      rw [Option.some_inj] at hr
      cases d <;>
        · rw [← hr]
          simp
    · rw [if_neg hq] at hr
      exact ih id r hr

/-- C9: in every progress map reachable from the empty map by recorded
answers, every stored record is `mastered` with difficultyScore 0 or
`learning` with difficultyScore 5; no stored record has status `new` and no
other score values occur. -/
theorem C9_reachable_progress_invariant (m : ProgressMap)
    (h : ReachableProgress m) :
    ∀ id r, m id = some r →
      r.status ≠ .new ∧
      ((r.status = .mastered ∧ r.difficultyScore = 0) ∨
       (r.status = .learning ∧ r.difficultyScore = 5)) := by
  intro id r hr
  rcases reachable_record_cases m h id r hr with ⟨hs, hd⟩ | ⟨hs, hd⟩
  · exact ⟨by simp [hs], Or.inr ⟨hs, hd⟩⟩
  · exact ⟨by simp [hs], Or.inl ⟨hs, hd⟩⟩

/-- Witness for C9: after one `easy` answer from the empty store, the single
stored record is `mastered` with score 0. -/
theorem C9_reachable_progress_invariant_witness :
    (updateProgress emptyProgress "q1" .easy 7) "q1" =
      some { status := .mastered, difficultyScore := 0, lastReviewed := 7,
             reviewCount := 1 } ∧
    (({ status := .mastered, difficultyScore := 0, lastReviewed := 7,
        reviewCount := 1 } : UserProgress).status ≠ .new ∧
     ((({ status := .mastered, difficultyScore := 0, lastReviewed := 7,
          reviewCount := 1 } : UserProgress).status = .mastered ∧
       ({ status := .mastered, difficultyScore := 0, lastReviewed := 7,
          reviewCount := 1 } : UserProgress).difficultyScore = 0) ∨
      (({ status := .mastered, difficultyScore := 0, lastReviewed := 7,
          reviewCount := 1 } : UserProgress).status = .learning ∧
       ({ status := .mastered, difficultyScore := 0, lastReviewed := 7,
          reviewCount := 1 } : UserProgress).difficultyScore = 5))) :=
  ⟨by decide,
   C9_reachable_progress_invariant _
     (ReachableProgress.step _ "q1" .easy 7 ReachableProgress.empty)
     "q1" _ (by decide)⟩

/-- C10: over every reachable progress map, the smart-review weight of every
question id is 4 (stored record with difficultyScore > 2), 3 (no record) or
0 (mastered); the weight-2 branch for status `learning` is dead, since every
reachable `learning` record has score 5 > 2 and therefore weight 4. -/
theorem C10_weight_values (m : ProgressMap) (h : ReachableProgress m)
    (id : String) :
    (getWeight m id = 4 ∨ getWeight m id = 3 ∨ getWeight m id = 0) ∧
    getWeight m id ≠ 2 ∧
    (∀ p, m id = some p → p.status = .learning → getWeight m id = 4) := by
  have hcases := reachable_record_cases m h id
  unfold getWeight
  cases hm : m id with
  | none => simp
  | some p =>
    rcases hcases p hm with ⟨hs, hd⟩ | ⟨hs, hd⟩ <;>
      simp [hs, hd]

/-- Witness for C10: after one `hard` answer from the empty store, the
answered question has weight 4 (and in particular its `learning` record does
not receive weight 2), and an unanswered id has weight 3. -/
theorem C10_weight_values_witness :
    ((getWeight (updateProgress emptyProgress "q1" .hard 7) "q1" = 4 ∨
      getWeight (updateProgress emptyProgress "q1" .hard 7) "q1" = 3 ∨
      getWeight (updateProgress emptyProgress "q1" .hard 7) "q1" = 0) ∧
     getWeight (updateProgress emptyProgress "q1" .hard 7) "q1" ≠ 2 ∧
     (∀ p, (updateProgress emptyProgress "q1" .hard 7) "q1" = some p →
        p.status = .learning →
        getWeight (updateProgress emptyProgress "q1" .hard 7) "q1" = 4)) ∧
    getWeight (updateProgress emptyProgress "q1" .hard 7) "q2" = 3 :=
  ⟨C10_weight_values _
     (ReachableProgress.step _ "q1" .hard 7 ReachableProgress.empty) "q1",
   by decide⟩

/-- Sample question constructor used by concrete witnesses and
counterexamples. -/
def mkQ (i : String) (cat : String) : Question :=
  { id := i, category := cat, qtype := .single, question := "",
    options := none, answer := Sum.inl "A", explanation := none }

/-- A fixed tie-break oracle (every random draw favours the left element),
used by concrete witnesses and counterexamples. -/
def tieLt : Question → Question → Ordering := fun _ _ => .lt

/-- C5: for every bank with unique question ids and every progress snapshot,
the smart-review queue has length exactly `min 30 (bank size)` and contains
no duplicate id, whatever the random tie-break draws. -/
theorem C5_smart_queue_length_nodup (questions : List Question)
    (progress : ProgressMap) (r : Question → Question → Ordering)
    (h : (questions.map (·.id)).Nodup) :
    (smartQueue progress r questions).length = min 30 questions.length ∧
    (smartQueue progress r questions).Nodup := by
  unfold smartQueue
  constructor
  · rw [List.length_map, List.length_take,
      (jsMergeSort_perm (smartCompare progress r) questions).length_eq]
  · rw [List.map_take]
    exact (List.take_sublist 30 _).nodup
      ((((jsMergeSort_perm (smartCompare progress r) questions).map
        (·.id)).symm).nodup h)

/-- Witness for C5 on a concrete two-question bank with distinct ids. -/
theorem C5_smart_queue_length_nodup_witness :
    (([mkQ "q1" "A", mkQ "q2" "A"].map (·.id)).Nodup) ∧
    ((smartQueue emptyProgress tieLt [mkQ "q1" "A", mkQ "q2" "A"]).length =
       min 30 ([mkQ "q1" "A", mkQ "q2" "A"] : List Question).length ∧
     (smartQueue emptyProgress tieLt [mkQ "q1" "A", mkQ "q2" "A"]).Nodup) :=
  ⟨by decide,
   C5_smart_queue_length_nodup [mkQ "q1" "A", mkQ "q2" "A"] emptyProgress
     tieLt (by decide)⟩

/-- C6: for every requested category (and optional type) and every progress
snapshot, the category-mode queue has exactly the length of the filtered
candidate set (no truncation), and every id in it belongs to a bank question
matching the requested category (and type, when one is given). -/
theorem C6_category_queue_exact (questions : List Question)
    (progress : ProgressMap) (r : Question → Question → Ordering)
    (cat : String) (qtype : Option QuestionType) :
    (categoryQueue progress r (filterCandidates questions (some cat) qtype)).length =
      (filterCandidates questions (some cat) qtype).length ∧
    ∀ qid ∈ categoryQueue progress r (filterCandidates questions (some cat) qtype),
      ∃ q ∈ questions, q.id = qid ∧ q.category = cat ∧
        (∀ t, qtype = some t → q.qtype = t) := by
  constructor
  · unfold categoryQueue
    rw [List.length_map,
      (jsMergeSort_perm (categoryCompare progress r) _).length_eq]
  · intro qid hqid
    unfold categoryQueue at hqid
    rw [List.mem_map] at hqid
    obtain ⟨q, hq, hid⟩ := hqid
    rw [(jsMergeSort_perm (categoryCompare progress r) _).mem_iff] at hq
    cases qtype with
    | none =>
      simp only [filterCandidates, List.mem_filter, decide_eq_true_eq] at hq
      exact ⟨q, hq.1, hid, hq.2, by simp⟩
    | some t =>
      simp only [filterCandidates, List.mem_filter, decide_eq_true_eq] at hq
      refine ⟨q, hq.1.1, hid, hq.1.2, ?_⟩
      intro t2 ht2
      cases ht2
      exact hq.2

/-- Witness for C6: a two-category bank filtered to category "A" yields a
one-element queue whose id comes from a category-"A" question. -/
theorem C6_category_queue_exact_witness :
    (categoryQueue emptyProgress tieLt
        (filterCandidates [mkQ "q1" "A", mkQ "q2" "B"] (some "A") none)).length =
      (filterCandidates [mkQ "q1" "A", mkQ "q2" "B"] (some "A") none).length ∧
    ∃ q ∈ [mkQ "q1" "A", mkQ "q2" "B"], q.id = "q1" ∧ q.category = "A" ∧
      (∀ t, (none : Option QuestionType) = some t → q.qtype = t) :=
  ⟨(C6_category_queue_exact [mkQ "q1" "A", mkQ "q2" "B"] emptyProgress tieLt
      "A" none).1,
   (C6_category_queue_exact [mkQ "q1" "A", mkQ "q2" "B"] emptyProgress tieLt
      "A" none).2 "q1"
     (by simp [categoryQueue, filterCandidates, jsMergeSort, mkQ])⟩

/-- C7: whenever the filtered candidate set is empty, `startSession` returns
the `NoMatchingQuestions` signal and the controller state completely
unchanged — in particular an idle controller stays idle and no session is
started. -/
theorem C7_no_matching_questions (questions : List Question)
    (progress : ProgressMap) (r : Question → Question → Ordering)
    (st : SessionState) (category : Option String) (qtype : Option QuestionType)
    (h : filterCandidates questions category qtype = []) :
    startSession questions progress r st category qtype =
      (st, .noMatchingQuestions) := by
  simp only [startSession, h]
  cases category <;> simp [smartQueue, categoryQueue, jsMergeSort]

/-- Witness for C7: an empty bank in smart-review mode leaves the idle
controller idle and reports no matching questions. -/
theorem C7_no_matching_questions_witness :
    filterCandidates [] none none = [] ∧
    startSession [] emptyProgress tieLt idleSession none none =
      (idleSession, .noMatchingQuestions) :=
  ⟨rfl, C7_no_matching_questions [] emptyProgress tieLt idleSession none none rfl⟩

/-- While the cursor has not reached the end of the queue, the session trace
stays in study mode over the same queue with the cursor equal to the number
of answers submitted. -/
theorem sessionTrace_state (queue : List String) (pm0 : ProgressMap)
    (outs : Nat → Difficulty) (times : Nat → Nat) :
    ∀ k, k < queue.length →
      (sessionTrace queue pm0 outs times k).1 =
        { mode := .STUDY, queue := queue, index := k } := by
  intro k
  induction k with
  | zero => intro _; rfl
  | succ k ih =>
    intro hk
    have hst := ih (by omega)
    simp only [sessionTrace]
    rw [hst]
    simp only [handleCardResult]
    rw [if_pos (by omega)]

/-- Submitting an answer while at least two questions remain advances the
cursor by one, stays in study mode over the same queue, and raises no
signal. -/
theorem sessionTrace_advance (queue : List String) (pm0 : ProgressMap)
    (outs : Nat → Difficulty) (times : Nat → Nat) (k : Nat)
    (hk : k + 1 < queue.length) :
    (sessionTrace queue pm0 outs times (k + 1)).1 =
      { mode := .STUDY, queue := queue, index := k + 1 } ∧
    (sessionTrace queue pm0 outs times (k + 1)).2.2 = .none := by
  constructor <;>
    · simp only [sessionTrace]
      rw [sessionTrace_state queue pm0 outs times k (by omega)]
      simp only [handleCardResult]
      rw [if_pos (by omega)]

/-- The answer to the last question of a nonempty queue returns the
controller to the idle state and signals completion. -/
theorem sessionTrace_complete (queue : List String) (pm0 : ProgressMap)
    (outs : Nat → Difficulty) (times : Nat → Nat) (h : queue ≠ []) :
    (sessionTrace queue pm0 outs times queue.length).1 = idleSession ∧
    (sessionTrace queue pm0 outs times queue.length).2.2 =
      .sessionComplete := by
  have hlen : 0 < queue.length := List.length_pos.mpr h
  obtain ⟨n, hn⟩ : ∃ n, queue.length = n + 1 := ⟨queue.length - 1, by omega⟩
  constructor <;>
    · rw [hn]
      simp only [sessionTrace]
      rw [sessionTrace_state queue pm0 outs times n (by omega)]
      simp only [handleCardResult]
      rw [if_neg (by omega)]

/-- C4: after `startSession` succeeds with a queue of length N, each of the
first N-1 calls to `submitAnswer` advances the cursor by one and stays in
study mode with no signal, and the N-th call completes the session: the
controller returns to the idle state (which is also what the auto-save
persists, clearing the active session from storage) and completion is
signalled to the caller. -/
theorem C4_submitAnswer_completion (questions : List Question)
    (progress pm0 : ProgressMap) (r : Question → Question → Ordering)
    (st0 st1 : SessionState) (category : Option String)
    (qtype : Option QuestionType) (outs : Nat → Difficulty) (times : Nat → Nat)
    (hstart : startSession questions progress r st0 category qtype =
      (st1, .none)) :
    st1.mode = .STUDY ∧ st1.index = 0 ∧ st1.queue ≠ [] ∧
    (∀ k, k + 1 < st1.queue.length →
      (sessionTrace st1.queue pm0 outs times (k + 1)).1 =
        { mode := .STUDY, queue := st1.queue, index := k + 1 } ∧
      (sessionTrace st1.queue pm0 outs times (k + 1)).2.2 = .none) ∧
    (sessionTrace st1.queue pm0 outs times st1.queue.length).1 = idleSession ∧
    (sessionTrace st1.queue pm0 outs times st1.queue.length).2.2 =
      .sessionComplete := by
  simp only [startSession] at hstart
  split at hstart
  · injection hstart with h1 h2
    exact SessionSignal.noConfusion h2
  · rename_i hlen
    injection hstart with h1 h2
    subst h1
    refine ⟨rfl, rfl, ?_, ?_, ?_⟩
    · intro hq
      simp only at hq
      rw [hq] at hlen
      exact hlen rfl
    · intro k hk
      exact sessionTrace_advance _ pm0 outs times k hk
    · exact sessionTrace_complete _ pm0 outs times (by
        intro hq
        simp only at hq
        rw [hq] at hlen
        exact hlen rfl)

/-- Witness for C4: on a concrete two-question bank, `startSession` succeeds
with queue `["q1","q2"]`; the first answer advances silently and the second
returns the controller to idle with the completion signal. -/
theorem C4_submitAnswer_completion_witness :
    startSession [mkQ "q1" "A", mkQ "q2" "A"] emptyProgress tieLt idleSession
        none none =
      ({ mode := .STUDY, queue := ["q1", "q2"], index := 0 }, .none) ∧
    (sessionTrace ["q1", "q2"] emptyProgress (fun _ => .easy) (fun _ => 0) 1).1 =
      { mode := .STUDY, queue := ["q1", "q2"], index := 1 } ∧
    (sessionTrace ["q1", "q2"] emptyProgress (fun _ => .easy) (fun _ => 0) 1).2.2 =
      .none ∧
    (sessionTrace ["q1", "q2"] emptyProgress (fun _ => .easy) (fun _ => 0) 2).1 =
      idleSession ∧
    (sessionTrace ["q1", "q2"] emptyProgress (fun _ => .easy) (fun _ => 0) 2).2.2 =
      .sessionComplete := by
  have hstart : startSession [mkQ "q1" "A", mkQ "q2" "A"] emptyProgress tieLt
      idleSession none none =
      ({ mode := .STUDY, queue := ["q1", "q2"], index := 0 }, .none) := by
    simp [startSession, smartQueue, filterCandidates, jsMergeSort, jsMerge,
      smartCompare, getWeight, emptyProgress, tieLt, mkQ]
  have h := C4_submitAnswer_completion [mkQ "q1" "A", mkQ "q2" "A"]
    emptyProgress emptyProgress tieLt idleSession
    { mode := .STUDY, queue := ["q1", "q2"], index := 0 } none none
    (fun _ => .easy) (fun _ => 0) hstart
  exact ⟨hstart, (h.2.2.2.1 0 (by decide)).1, (h.2.2.2.1 0 (by decide)).2,
    h.2.2.2.2.1, h.2.2.2.2.2⟩

/-- C8: restoring from a persisted session snapshot in study mode yields
exactly the persisted mode, queue and cursor (the queue builder is not
involved in `initApp`), and `currentQuestion` immediately resolves to the
bank question whose id sits at the persisted cursor position. -/
theorem C8_resume_session (questions : List Question) (queue : List String)
    (i : Nat) (qid : String) (Q : Question)
    (hq : queue[i]? = some qid)
    (hfind : questions.find? (fun q => q.id = qid) = some Q) :
    initApp (some { mode := .STUDY, queue := queue, index := i }) =
      { mode := .STUDY, queue := queue, index := i } ∧
    currentQuestion questions
        (initApp (some { mode := .STUDY, queue := queue, index := i })) =
      some Q := by
  refine ⟨rfl, ?_⟩
  simp [currentQuestion, initApp, hq, hfind]

/-- Witness for C8: the claim's scenario — persisted queue `[q1,q2,q3]` with
cursor 1 resumes in study mode and `currentQuestion` returns q2. -/
theorem C8_resume_session_witness :
    initApp (some { mode := .STUDY, queue := ["q1", "q2", "q3"], index := 1 }) =
      { mode := .STUDY, queue := ["q1", "q2", "q3"], index := 1 } ∧
    currentQuestion [mkQ "q1" "A", mkQ "q2" "A", mkQ "q3" "A"]
        (initApp
          (some { mode := .STUDY, queue := ["q1", "q2", "q3"], index := 1 })) =
      some (mkQ "q2" "A") :=
  C8_resume_session [mkQ "q1" "A", mkQ "q2" "A", mkQ "q3" "A"]
    ["q1", "q2", "q3"] 1 "q2" (mkQ "q2" "A") (by decide) (by decide)

/-- A strictly heavier right element makes the smart comparator answer `gt`,
whatever the tie-break oracle. -/
theorem smartCompare_gt (progress : ProgressMap)
    (r : Question → Question → Ordering) (a b : Question)
    (h : getWeight progress a.id < getWeight progress b.id) :
    smartCompare progress r a b = .gt := by
  unfold smartCompare
  rw [if_neg (by omega), if_pos (by omega)]

/-- A strictly heavier left element makes the smart comparator answer `lt`,
whatever the tie-break oracle. -/
theorem smartCompare_lt (progress : ProgressMap)
    (r : Question → Question → Ordering) (a b : Question)
    (h : getWeight progress b.id < getWeight progress a.id) :
    smartCompare progress r a b = .lt := by
  unfold smartCompare
  rw [if_pos (by omega)]

/-- The smart-review queue is ordered by non-increasing weight for every
tie-break oracle. -/
theorem smartQueue_pairwise (progress : ProgressMap)
    (r : Question → Question → Ordering) (questions : List Question) :
    (smartQueue progress r questions).Pairwise
      (fun x y => getWeight progress y ≤ getWeight progress x) := by
  unfold smartQueue
  refine List.Pairwise.map _ (fun a b h => h) ?_
  exact ((jsMergeSort_pairwise (fun q => getWeight progress q.id)
    (smartCompare progress r) (smartCompare_gt progress r)
    (smartCompare_lt progress r) questions)).sublist (List.take_sublist 30 _)

/-- A progress snapshot on which the claim C2 fails: a `mastered` record may
carry a difficultyScore above 2 (nothing in the store's types forbids it),
and `getWeight` checks the score before the status, so such a record weighs
4 and ties with genuinely hard questions. -/
def snapCE : ProgressMap := fun id =>
  if id = "q1" then
    some { status := .mastered, difficultyScore := 5, lastReviewed := 0,
           reviewCount := 1 }
  else if id = "q2" then
    some { status := .learning, difficultyScore := 5, lastReviewed := 0,
           reviewCount := 1 }
  else none

/-- C2 counterexample: with the snapshot `snapCE`, a tie-break draw that
keeps input order produces the smart-review queue `["q1", "q2"]`, in which
"q2" — whose record has difficultyScore 5 > 2 — is ordered after "q1" —
whose status is `mastered`. The claim, quantified over every progress
snapshot and every draw sequence, is therefore false. -/
theorem C2_counterexample :
    smartQueue snapCE tieLt [mkQ "q1" "A", mkQ "q2" "A"] = ["q1", "q2"] ∧
    (snapCE "q1").map (·.status) = some .mastered ∧
    (snapCE "q2").map (fun p => decide (p.difficultyScore > 2)) = some true := by
  refine ⟨?_, by decide, by decide⟩
  simp [smartQueue, jsMergeSort, jsMerge, smartCompare, getWeight, snapCE,
    tieLt, mkQ]

/-- C2 amended: provided every `mastered` record in the snapshot has
difficultyScore at most 2 — which holds in particular for every snapshot the
store can actually reach, where mastered records have score 0 — no question
whose record has difficultyScore > 2 is ordered after a `mastered` question
in the smart-review queue, for every bank and every tie-break draw. -/
theorem C2_amended_no_hard_after_mastered (questions : List Question)
    (progress : ProgressMap) (r : Question → Question → Ordering)
    (hvalid : ∀ id p, progress id = some p → p.status = .mastered →
      p.difficultyScore ≤ 2)
    (i j : Nat) (idi idj : String) (pi pj : UserProgress)
    (hij : i < j)
    (hi : (smartQueue progress r questions)[i]? = some idi)
    (hj : (smartQueue progress r questions)[j]? = some idj)
    (hpi : progress idi = some pi) (hpj : progress idj = some pj)
    (hmast : pi.status = .mastered) :
    pj.difficultyScore ≤ 2 := by
  by_contra hscore
  push_neg at hscore
  have hwj : getWeight progress idj = 4 := by
    simp only [getWeight, hpj]
    rw [if_pos (by omega)]
  have hwi : getWeight progress idi = 0 := by
    have hle := hvalid idi pi hpi hmast
    simp only [getWeight, hpi]
    rw [if_neg (by omega), if_neg (by rw [hmast]; decide)]
  have hpair := smartQueue_pairwise progress r questions
  rw [List.pairwise_iff_getElem] at hpair
  obtain ⟨hilen, hival⟩ := List.getElem?_eq_some_iff.mp hi
  obtain ⟨hjlen, hjval⟩ := List.getElem?_eq_some_iff.mp hj
  have hwle := hpair i j hilen hjlen hij
  rw [hival, hjval] at hwle
  omega

/-- A snapshot reachable in spirit (mastered records score 0, learning
records score 5) used to witness the amended C2. -/
def snapW : ProgressMap := fun id =>
  if id = "q1" then
    some { status := .mastered, difficultyScore := 0, lastReviewed := 0,
           reviewCount := 1 }
  else if id = "q2" then
    some { status := .learning, difficultyScore := 5, lastReviewed := 0,
           reviewCount := 1 }
  else if id = "q3" then
    some { status := .mastered, difficultyScore := 0, lastReviewed := 0,
           reviewCount := 2 }
  else none

/-- A mastered record with score 0 and the given review count, as stored in
`snapW`. -/
def recMast (n : Nat) : UserProgress :=
  { status := .mastered, difficultyScore := 0, lastReviewed := 0,
    reviewCount := n }

/-- Witness for the amended C2: on a three-question bank with snapshot
`snapW` the smart queue is `["q2", "q1", "q3"]`; positions 1 and 2 hold the
mastered "q1" followed by "q3", and the theorem yields score ≤ 2 for "q3". -/
theorem C2_amended_no_hard_after_mastered_witness :
    (∀ id p, snapW id = some p → p.status = .mastered →
      p.difficultyScore ≤ 2) ∧
    (1 : Nat) < 2 ∧
    (smartQueue snapW tieLt [mkQ "q1" "A", mkQ "q2" "A", mkQ "q3" "A"])[1]? =
      some "q1" ∧
    (smartQueue snapW tieLt [mkQ "q1" "A", mkQ "q2" "A", mkQ "q3" "A"])[2]? =
      some "q3" ∧
    snapW "q1" = some (recMast 1) ∧
    snapW "q3" = some (recMast 2) ∧
    (recMast 1).status = .mastered ∧
    (recMast 2).difficultyScore ≤ 2 := by
  have hvalid : ∀ id p, snapW id = some p → p.status = .mastered →
      p.difficultyScore ≤ 2 := by
    intro id p hp hm
    unfold snapW at hp
    split_ifs at hp
    all_goals first
      | exact Option.noConfusion hp
      | (rw [Option.some_inj] at hp
         subst hp
         first
           | decide
           | exact absurd hm (by decide))
  have hqueue : smartQueue snapW tieLt
      [mkQ "q1" "A", mkQ "q2" "A", mkQ "q3" "A"] = ["q2", "q1", "q3"] := by
    simp [smartQueue, jsMergeSort, jsMerge, smartCompare, getWeight, snapW,
      tieLt, mkQ]
  have hi : (smartQueue snapW tieLt
      [mkQ "q1" "A", mkQ "q2" "A", mkQ "q3" "A"])[1]? = some "q1" := by
    rw [hqueue]
    decide
  have hj : (smartQueue snapW tieLt
      [mkQ "q1" "A", mkQ "q2" "A", mkQ "q3" "A"])[2]? = some "q3" := by
    rw [hqueue]
    decide
  exact ⟨hvalid, by omega, hi, hj, by decide, by decide, by decide,
    C2_amended_no_hard_after_mastered
      [mkQ "q1" "A", mkQ "q2" "A", mkQ "q3" "A"] snapW tieLt hvalid
      1 2 "q1" "q3" (recMast 1) (recMast 2) (by omega) hi hj (by decide)
      (by decide) (by decide)⟩

/-- C3 counterexample: a persisted session whose queue references the id
"zz", absent from the one-question bank, is restored verbatim — the
controller stays in study mode (it is not forced back to the dashboard/idle
state) and `currentQuestion` merely resolves to `none`; nothing clears the
stale persisted session. The claimed fatal-to-session handling does not
exist in the code. -/
theorem C3_counterexample :
    initApp (some { mode := .STUDY, queue := ["zz"], index := 0 }) =
      { mode := .STUDY, queue := ["zz"], index := 0 } ∧
    currentQuestion [mkQ "q1" "A"]
      (initApp (some { mode := .STUDY, queue := ["zz"], index := 0 })) =
      none ∧
    (initApp (some { mode := .STUDY, queue := ["zz"], index := 0 })).mode ≠
      .DASHBOARD := by
  exact ⟨rfl, by decide, by decide⟩

/-- C3 amended: when a restored session's queue references a question id not
in the bank, the controller keeps the persisted state unchanged — study mode,
stale queue and all — and `currentQuestion` resolves to `none`, so no
question can be presented; the session is not cleared and no transition to
idle occurs (only an explicit exit would clear it). -/
theorem C3_amended_stale_reference (questions : List Question)
    (st : SessionState) (qid : String)
    (hmode : st.mode = .STUDY)
    (hq : st.queue[st.index]? = some qid)
    (hstale : ∀ q ∈ questions, q.id ≠ qid) :
    initApp (some st) = st ∧ currentQuestion questions st = none := by
  refine ⟨rfl, ?_⟩
  unfold currentQuestion
  rw [if_neg (by simp [hmode])]
  rw [hq]
  rw [List.find?_eq_none]
  intro q hqmem
  simpa using hstale q hqmem

/-- Witness for the amended C3: the concrete stale-reference scenario from
the counterexample, run through the amended theorem. -/
theorem C3_amended_stale_reference_witness :
    ({ mode := .STUDY, queue := ["zz"], index := 0 } : SessionState).mode =
      .STUDY ∧
    ({ mode := .STUDY, queue := ["zz"], index := 0 } :
      SessionState).queue[({ mode := .STUDY, queue := ["zz"], index := 0 } :
        SessionState).index]? = some "zz" ∧
    (∀ q ∈ [mkQ "q1" "A"], q.id ≠ "zz") ∧
    (initApp (some { mode := .STUDY, queue := ["zz"], index := 0 }) =
      { mode := .STUDY, queue := ["zz"], index := 0 } ∧
     currentQuestion [mkQ "q1" "A"]
       { mode := .STUDY, queue := ["zz"], index := 0 } = none) :=
  ⟨rfl, by decide, by decide,
   C3_amended_stale_reference [mkQ "q1" "A"]
     { mode := .STUDY, queue := ["zz"], index := 0 } "zz" rfl (by decide)
     (by decide)⟩
